import Mathlib

/-!
Verification of `junit-grader.py` against its specification.

The program is shallowly embedded: each Python function becomes a Lean
definition over explicit data types.  XML parsing itself is out of scope
(the spec treats it as "propagate errors"); a parsed `testcase` element is
modelled by the `Testcase` structure below, and an XML report file by a
`List Testcase` (the `testcase` elements in document order).
-/

namespace JunitGrader

/-- A parsed `testcase` XML element, as seen by `process_junit_testcase`.
`failure`/`system_out`: the outer `Option` is presence of the child element
(`testcase.find(...) is not None`), the inner `Option` is presence of the
element's text (`.text is not None`; ElementTree yields `None`, never `""`,
for a contentless element).  `time` is the `time` attribute, required by the
input schema, with `float(...)` parsing modelled as an exact rational. -/
structure Testcase where
  classname : String
  name : String
  time : ℚ
  status : Option String
  failure : Option (Option String)
  system_out : Option (Option String)
  deriving DecidableEq, Repr

/-- The `TestResult` named tuple (`output` after the final
`if output is None: output = ""` normalisation). -/
structure TestResult where
  classname : String
  name : String
  success : Bool
  output : String
  deriving DecidableEq, Repr

/-- The synthetic timeout diagnostic written by the classifier. -/
def TIMEOUT_MSG : String := "TIMEOUT (infinite loop?)"

/-- Embedding of `process_junit_testcase`, with the module-global `TIMEOUT`
threshold threaded as the explicit `timeout` parameter. -/
def process_junit_testcase (timeout : ℚ) (tc : Testcase) : TestResult :=
  match tc.failure with
  | some failureText =>
      -- branch `if (failure_tag := testcase.find("failure")) is not None`
      let output1 : Option String := failureText
      let output2 : Option String :=
        match output1 with
        | some t => some t
        | none =>
            match tc.system_out with
            | some soutText => soutText
            | none => none
      let output3 : Option String :=
        match output2 with
        | some t => some t
        | none => if timeout < tc.time then some TIMEOUT_MSG else none
      { classname := tc.classname, name := tc.name, success := false,
        output := output3.getD "" }
  | none =>
      match tc.status with
      | some status =>
          -- branch `elif 'status' in testcase.attrib`
          if status = "run" then
            { classname := tc.classname, name := tc.name, success := true, output := "" }
          else if status = "fail" then
            let output : Option String :=
              match tc.system_out with
              | some (some t) => some t
              | _ => if timeout < tc.time then some TIMEOUT_MSG else none
            { classname := tc.classname, name := tc.name, success := false,
              output := output.getD "" }
          else
            -- `success` keeps its initial `False`, `output` stays `None`
            { classname := tc.classname, name := tc.name, success := false, output := "" }
      | none =>
          -- `else: success = True`
          { classname := tc.classname, name := tc.name, success := true, output := "" }

/-- Embedding of `process_junit`: one `TestResult` per `testcase` element,
in document order. -/
def process_junit (timeout : ℚ) (doc : List Testcase) : List TestResult :=
  doc.map (process_junit_testcase timeout)

/-- C2: a testcase with a `failure` child is classified failed, and its
diagnostic is resolved in this order: the failure element's own text if
present; else the system-out element's text if present; else the synthetic
timeout message when the time attribute exceeds the threshold; else `""`. -/
theorem failure_tag_classification (timeout : ℚ) (tc : Testcase) (ft : Option String)
    (h : tc.failure = some ft) :
    (process_junit_testcase timeout tc).success = false ∧
    (process_junit_testcase timeout tc).output =
      (match ft with
       | some t => t
       | none =>
           match tc.system_out with
           | some (some t) => t
           | _ => if timeout < tc.time then TIMEOUT_MSG else "") := by
  obtain ⟨cn, nm, tm, st, fl, so⟩ := tc
  simp only at h
  subst h
  cases ft with
  | some t => exact ⟨rfl, rfl⟩
  | none =>
      cases so with
      | some soutText =>
          cases soutText with
          | some t => exact ⟨rfl, rfl⟩
          | none =>
              refine ⟨rfl, ?_⟩
              by_cases ht : timeout < tm <;>
                simp [process_junit_testcase, ht]
      | none =>
          refine ⟨rfl, ?_⟩
          by_cases ht : timeout < tm <;>
            simp [process_junit_testcase, ht]

/-- C2 witness: a testcase whose `failure` child has text `"assert failed"`
yields `passed = false` and diagnostic `"assert failed"`. -/
theorem failure_tag_classification_witness :
    (process_junit_testcase 10
      { classname := "c", name := "t", time := 0, status := none,
        failure := some (some "assert failed"), system_out := none }).success = false ∧
    (process_junit_testcase 10
      { classname := "c", name := "t", time := 0, status := none,
        failure := some (some "assert failed"), system_out := none }).output
      = "assert failed" :=
  failure_tag_classification 10
    { classname := "c", name := "t", time := 0, status := none,
      failure := some (some "assert failed"), system_out := none }
    (some "assert failed") rfl

/-- C3: with no `failure` child but a `status` attribute: `status = "run"`
gives passed with empty diagnostic; `status = "fail"` gives failed with the
diagnostic resolved as the system-out text when present and non-empty, else
the synthetic timeout message when the time attribute exceeds the threshold,
else `""`.  The hypothesis `tc.system_out ≠ some (some "")` delimits records
obtainable from parsed XML: ElementTree reports a contentless element's text
as `None`, never as the empty string. -/
theorem status_attr_classification (timeout : ℚ) (tc : Testcase) (s : String)
    (h1 : tc.failure = none) (h2 : tc.status = some s)
    (h3 : tc.system_out ≠ some (some "")) :
    (s = "run" →
      process_junit_testcase timeout tc =
        { classname := tc.classname, name := tc.name, success := true, output := "" }) ∧
    (s = "fail" →
      (process_junit_testcase timeout tc).success = false ∧
      (process_junit_testcase timeout tc).output =
        (match tc.system_out with
         | some (some t) =>
             if t = "" then (if timeout < tc.time then TIMEOUT_MSG else "") else t
         | _ => if timeout < tc.time then TIMEOUT_MSG else "")) := by
  obtain ⟨cn, nm, tm, st, fl, so⟩ := tc
  simp only at h1 h2 h3
  subst h1 h2
  constructor
  · intro hs
    subst hs
    rfl
  · intro hs
    subst hs
    simp only [process_junit_testcase]
    norm_num
    cases so with
    | some soutText =>
        cases soutText with
        | some t =>
            have ht : t ≠ "" := by
              intro h
              subst h
              exact h3 rfl
            refine ⟨rfl, ?_⟩
            simp [ht]
        | none =>
            refine ⟨rfl, ?_⟩
            by_cases htime : timeout < tm <;> simp [htime]
    | none =>
        refine ⟨rfl, ?_⟩
        by_cases htime : timeout < tm <;> simp [htime]

/-- C3 witness: `status = "fail"`, no system-out, `time = 15`, threshold 10
gives the synthetic timeout diagnostic (and `status = "run"` on the same
shape gives a pass). -/
theorem status_attr_classification_witness :
    (process_junit_testcase 10
      { classname := "c", name := "t", time := 15, status := some "fail",
        failure := none, system_out := none }).success = false ∧
    (process_junit_testcase 10
      { classname := "c", name := "t", time := 15, status := some "fail",
        failure := none, system_out := none }).output = TIMEOUT_MSG := by
  have h := (status_attr_classification 10
    { classname := "c", name := "t", time := 15, status := some "fail",
      failure := none, system_out := none } "fail" rfl rfl (by decide)).2 rfl
  exact ⟨h.1, h.2.trans (by norm_num)⟩

/-- C4: a testcase with neither a `failure` child nor a `status` attribute is
classified as passed with empty diagnostic. -/
theorem no_marker_classification (timeout : ℚ) (tc : Testcase)
    (h1 : tc.failure = none) (h2 : tc.status = none) :
    process_junit_testcase timeout tc =
      { classname := tc.classname, name := tc.name, success := true, output := "" } := by
  unfold process_junit_testcase
  rw [h1, h2]

/-- C4 witness. -/
theorem no_marker_classification_witness :
    process_junit_testcase 10
      { classname := "c", name := "t", time := 3, status := none,
        failure := none, system_out := none } =
      { classname := "c", name := "t", success := true, output := "" } :=
  no_marker_classification 10
    { classname := "c", name := "t", time := 3, status := none,
      failure := none, system_out := none } rfl rfl

/-- C10: no `failure` child and a `status` attribute other than `"run"` or
`"fail"` yields `passed = false` with empty diagnostic — the initial
`success = False` is never overwritten and no diagnostic is assigned. -/
theorem unknown_status_classification (timeout : ℚ) (tc : Testcase) (s : String)
    (h1 : tc.failure = none) (h2 : tc.status = some s)
    (h3 : s ≠ "run") (h4 : s ≠ "fail") :
    process_junit_testcase timeout tc =
      { classname := tc.classname, name := tc.name, success := false, output := "" } := by
  unfold process_junit_testcase
  rw [h1, h2]
  simp [h3, h4]

/-- C10 witness: `status = "skipped"`. -/
theorem unknown_status_classification_witness :
    process_junit_testcase 10
      { classname := "c", name := "t", time := 3, status := some "skipped",
        failure := none, system_out := none } =
      { classname := "c", name := "t", success := false, output := "" } :=
  unknown_status_classification 10
    { classname := "c", name := "t", time := 3, status := some "skipped",
      failure := none, system_out := none } "skipped" rfl rfl
    (by decide) (by decide)

/-! ### Rubric generation (`generate_score`) -/

/-- Python's `int(a / b)`: truncated division, a fallible operation that
raises `ZeroDivisionError` when `b = 0`.  For the natural-number operands
this tool uses, truncation towards zero is floor division; the `float`
intermediate of CPython's `/` is modelled as exact. -/
def pyIntDiv (a b : ℕ) : Option ℕ := if b = 0 then none else some (a / b)

/-- One row written to the rubric CSV by `generate_score`
(columns `classname, testname, max_score`). -/
structure RubricEntry where
  classname : String
  testname : String
  max_score : ℕ
  deriving DecidableEq, Repr

/-- Embedding of `generate_score`: collect `(classname, testname)` rows from
all reports in order, then assign each row `int(max_score / num_rows)`.
The division is evaluated once per collected row — exactly as in the source,
where it sits inside the `for r in rows` loop — so with zero rows it is
never evaluated and the result is the empty row list (a header-only file). -/
def generate_score (timeout : ℚ) (xml_files : List (List Testcase)) (max_score : ℕ) :
    Option (List RubricEntry) :=
  let rows := (xml_files.flatMap (process_junit timeout)).map fun t => (t.classname, t.name)
  let num_rows := rows.length
  rows.mapM fun r => (pyIntDiv max_score num_rows).map fun q =>
    { classname := r.1, testname := r.2, max_score := q }

theorem mapM_pure_some {α β : Type} (l : List α) (g : α → β) :
    l.mapM (fun a => some (g a)) = some (l.map g) := by
  rw [← List.mapM'_eq_mapM]
  induction l with
  | nil => rfl
  | cons a t ih => simp [List.mapM', ih]

/-- C1 counterexample: a generate run over a report with zero testcases does
NOT fail — `generate_score` completes, returning the empty row list, i.e. it
silently produces a header-only rubric file.  The guarded division
`int(max_score / num_rows)` sits inside the per-row loop, which runs zero
times, so the `ZeroDivisionError` is never raised. -/
theorem generate_score_zero_outcomes_cex :
    generate_score 10 [[]] 100 = some [] ∧ generate_score 10 [[]] 100 ≠ none := by
  refine ⟨rfl, ?_⟩
  intro h
  rw [show generate_score 10 [[]] 100 = some [] from rfl] at h
  exact Option.noConfusion h

/-- C1 amended: for every rubric-generation run in which the supplied XML
reports yield zero test outcomes in total, `generate_score` completes
without evaluating the division by zero (the per-row division loop runs
zero times) and silently produces an empty, header-only rubric file. -/
theorem generate_score_zero_outcomes (timeout : ℚ) (files : List (List Testcase))
    (M : ℕ) (h : files.flatMap (process_junit timeout) = []) :
    generate_score timeout files M = some [] := by
  unfold generate_score
  rw [h]
  rfl

/-- C1 amended witness. -/
theorem generate_score_zero_outcomes_witness :
    generate_score 10 [[], []] 100 = some [] :=
  generate_score_zero_outcomes 10 [[], []] 100 rfl

/-- C5: with `n ≥ 1` total outcomes and target total score `M`, the rubric
generator emits exactly one entry per outcome, in file order then in-file
order, carrying the outcome's names and `max_score = M / n` (floor); the sum
of the emitted `max_score` values is `n * (M / n)`, which is at most `M`
with discrepancy `M % n < n`. -/
theorem generate_score_even_split (timeout : ℚ) (files : List (List Testcase))
    (M n : ℕ) (entries : List RubricEntry)
    (hn : (files.flatMap (process_junit timeout)).length = n)
    (hent : entries = (files.flatMap (process_junit timeout)).map fun t =>
      { classname := t.classname, testname := t.name, max_score := M / n })
    (hpos : 1 ≤ n) :
    generate_score timeout files M = some entries ∧
    entries.map RubricEntry.max_score = List.replicate n (M / n) ∧
    (entries.map RubricEntry.max_score).sum ≤ M ∧
    M - (entries.map RubricEntry.max_score).sum < n := by
  have hdiv : pyIntDiv M n = some (M / n) := by
    unfold pyIntDiv
    rw [if_neg (by omega)]
  have hmain : generate_score timeout files M = some entries := by
    unfold generate_score
    simp only [List.length_map, hn, hdiv, Option.map_some']
    rw [mapM_pure_some, hent]
    simp
  refine ⟨hmain, ?_, ?_, ?_⟩
  · rw [hent]
    simp only [List.map_map]
    have : (RubricEntry.max_score ∘ fun t : TestResult =>
        ({ classname := t.classname, testname := t.name, max_score := M / n } : RubricEntry))
        = fun _ => M / n := rfl
    rw [this, List.map_const', hn]
  · rw [hent]
    simp only [List.map_map]
    have : (RubricEntry.max_score ∘ fun t : TestResult =>
        ({ classname := t.classname, testname := t.name, max_score := M / n } : RubricEntry))
        = fun _ => M / n := rfl
    rw [this, List.map_const', hn, List.sum_replicate, smul_eq_mul]
    have := Nat.div_add_mod M n
    omega
  · rw [hent]
    simp only [List.map_map]
    have : (RubricEntry.max_score ∘ fun t : TestResult =>
        ({ classname := t.classname, testname := t.name, max_score := M / n } : RubricEntry))
        = fun _ => M / n := rfl
    rw [this, List.map_const', hn, List.sum_replicate, smul_eq_mul]
    have h1 := Nat.div_add_mod M n
    have h2 := Nat.mod_lt M (show 0 < n by omega)
    omega

/-- C5 witness: 4 passing outcomes, `M = 100`, every entry gets 25 and the
sum is exactly 100. -/
theorem generate_score_even_split_witness :
    generate_score 10
      [[{ classname := "a", name := "t1", time := 0, status := none,
          failure := none, system_out := none },
        { classname := "a", name := "t2", time := 0, status := none,
          failure := none, system_out := none }],
       [{ classname := "b", name := "t3", time := 0, status := none,
          failure := none, system_out := none },
        { classname := "b", name := "t4", time := 0, status := none,
          failure := none, system_out := none }]] 100 =
      some [{ classname := "a", testname := "t1", max_score := 25 },
            { classname := "a", testname := "t2", max_score := 25 },
            { classname := "b", testname := "t3", max_score := 25 },
            { classname := "b", testname := "t4", max_score := 25 }] ∧
    [(25 : ℕ), 25, 25, 25] = List.replicate 4 25 ∧
    ([(25 : ℕ), 25, 25, 25]).sum ≤ 100 ∧
    100 - ([(25 : ℕ), 25, 25, 25]).sum < 4 :=
  generate_score_even_split 10
    [[{ classname := "a", name := "t1", time := 0, status := none,
        failure := none, system_out := none },
      { classname := "a", name := "t2", time := 0, status := none,
        failure := none, system_out := none }],
     [{ classname := "b", name := "t3", time := 0, status := none,
        failure := none, system_out := none },
      { classname := "b", name := "t4", time := 0, status := none,
        failure := none, system_out := none }]] 100 4
    _ rfl rfl (by decide)

/-! ### Ordered dictionaries

`OrderedDict` is modelled as an association list in insertion order:
assigning to an existing key replaces its value in place, assigning to a
fresh key appends at the end, and iteration follows the list order. -/

/-- `d[k] = v` on an ordered dictionary. -/
def odSet {κ α : Type} [DecidableEq κ] : List (κ × α) → κ → α → List (κ × α)
  | [], k, v => [(k, v)]
  | (k', v') :: rest, k, v =>
      if k' = k then (k, v) :: rest else (k', v') :: odSet rest k v

/-- `d[k]` on an ordered dictionary; `none` is a `KeyError`. -/
def odGet? {κ α : Type} [DecidableEq κ] : List (κ × α) → κ → Option α
  | [], _ => none
  | (k', v) :: rest, k => if k' = k then some v else odGet? rest k

/-! ### Grading runs (`grade_txt` and `gradescope_json`) -/

/-- One row read back from the rubric CSV by `csv.DictReader`: all fields
are strings. -/
structure CsvRow where
  classname : String
  testname : String
  max_score : String
  deriving DecidableEq, Repr

/-- The value stored under the `score` key of a result record: the Python
code assigns either the literal `int` `0` or the `max_score` CSV string. -/
inductive ScoreVal where
  | zero : ScoreVal
  | str : String → ScoreVal
  deriving DecidableEq, Repr

/-- One per-test record (`all_results[...]` value) built by the grading
runs: keys `name`, `max_score`, `score` and, once a non-empty diagnostic is
attached, `output`. -/
structure GEntry where
  name : String
  max_score : String
  score : ScoreVal
  output : Option String
  deriving DecidableEq, Repr

/-- The composite name `classname + ":" + testname`. -/
def comp (classname testname : String) : String := classname ++ ":" ++ testname

/-- The key `grade_txt` uses for `all_results`: the composite string. -/
def txtKey (t : TestResult) : String := comp t.classname t.name

/-- The key `gradescope_json` uses for `all_results`: the tuple. -/
def gsKey (t : TestResult) : String × String := (t.classname, t.name)

/-- Python's `int(s)` on the decimal strings this tool writes and reads:
succeeds exactly on non-empty all-digit strings (the sign, whitespace and
underscore forms `int` additionally accepts never arise from this tool's
own rubric files); `none` is a fatal `ValueError`. -/
def pyInt (s : String) : Option ℕ :=
  if s.data ≠ [] ∧ s.data.all (fun c => c.isDigit) then
    some (s.data.foldl (fun a c => 10 * a + (c.toNat - 48)) 0)
  else none

/-- The record created for a rubric row at load time (`score` initialised
to the int `0`, no `output` yet). -/
def entry0 (row : CsvRow) : GEntry :=
  { name := comp row.classname row.testname, max_score := row.max_score,
    score := .zero, output := none }

/-- The `all_results` dictionary after the rubric-loading loop, for a given
choice of key (composite string for `grade_txt`, tuple for
`gradescope_json`). -/
def loadList {κ : Type} [DecidableEq κ] (rkey : CsvRow → κ) (rows : List CsvRow) :
    List (κ × GEntry) :=
  rows.foldl (fun l row => odSet l (rkey row) (entry0 row)) []

/-- One iteration of the merge loop over test outcomes, shared by both
reporters: look the outcome's key up (a `KeyError` is fatal), set `score`
to the entry's `max_score` string on success or to the int `0` on failure,
and attach a non-empty diagnostic. -/
def stepEnt {κ : Type} [DecidableEq κ] (key : TestResult → κ)
    (l : List (κ × GEntry)) (t : TestResult) : Option (List (κ × GEntry)) := do
  let e ← odGet? l (key t)
  let e1 : GEntry := { e with score := if t.success then .str e.max_score else .zero }
  let l1 := odSet l (key t) e1
  pure (if t.output ≠ "" then odSet l1 (key t) { e1 with output := some t.output } else l1)

/-- One iteration of `grade_txt`'s merge loop: the entry update of
`stepEnt txtKey` plus the running `total += int(score)` (where `int` on the
string score can raise, fatally). -/
def stepTxt (st : List (String × GEntry) × ℕ) (t : TestResult) :
    Option (List (String × GEntry) × ℕ) := do
  let e ← odGet? st.1 (txtKey t)
  let e1 : GEntry := { e with score := if t.success then .str e.max_score else .zero }
  let l1 := odSet st.1 (txtKey t) e1
  let inc ← if t.success then pyInt e.max_score else pure 0
  let l2 := if t.output ≠ "" then odSet l1 (txtKey t) { e1 with output := some t.output } else l1
  pure (l2, st.2 + inc)

/-- One iteration of `grade_txt`'s rubric-loading loop: install the row's
record under its composite key and accumulate
`total_max += int(row['max_score'])` (fatal on a non-numeric field). -/
def loadStepTxt (st : List (String × GEntry) × ℕ) (row : CsvRow) :
    Option (List (String × GEntry) × ℕ) := do
  let l := odSet st.1 (comp row.classname row.testname) (entry0 row)
  let m ← pyInt row.max_score
  pure (l, st.2 + m)

/-- `grade_txt`'s rubric-loading loop. -/
def loadTxt (rows : List CsvRow) : Option (List (String × GEntry) × ℕ) :=
  rows.foldlM loadStepTxt ([], 0)

/-- Embedding of `grade_txt`.  The result determines the printed report:
the final dictionary in iteration order (one `name: score/max_score` line
per entry), the outcome total and the rubric total.  `none` is a fatal
error (KeyError or ValueError). -/
def grade_txt (timeout : ℚ) (rows : List CsvRow) (xml_files : List (List Testcase)) :
    Option (List (String × GEntry) × ℕ × ℕ) := do
  let (l0, total_max) ← loadTxt rows
  let (l, total) ← (xml_files.flatMap (process_junit timeout)).foldlM stepTxt (l0, 0)
  pure (l, total, total_max)

/-- Embedding of `gradescope_json`'s dictionary construction: same merge as
`grade_txt` but keyed by the `(classname, testname)` tuple and with no
running totals.  The result list, in iteration order, is what gets
serialised to JSON. -/
def gradescope_json (timeout : ℚ) (rows : List CsvRow) (xml_files : List (List Testcase)) :
    Option (List ((String × String) × GEntry)) :=
  (xml_files.flatMap (process_junit timeout)).foldlM (stepEnt gsKey)
    (loadList (fun r => (r.classname, r.testname)) rows)

/-- A rubric whose two rows have distinct `(classname, testname)` pairs but
the same composite string `"a:b:c"`. -/
def aliasRows : List CsvRow :=
  [{ classname := "a:b", testname := "c", max_score := "10" },
   { classname := "a", testname := "b:c", max_score := "20" }]

/-- C6 counterexample: grading `aliasRows` (two rubric entries, distinct
pair keys) with no outcomes: `grade_txt` loads both rows into the SAME
composite key `"a:b:c"`, so its output contains a single line — the first
rubric entry never appears, refuting "every rubric entry appears exactly
once in the produced output". -/
theorem grade_txt_collapsed_entries_cex :
    grade_txt 10 aliasRows [] =
      some ([("a:b:c", { name := "a:b:c", max_score := "20", score := .zero, output := none })],
        0, 30) ∧
    aliasRows.length = 2 ∧
    (aliasRows.map fun r => (r.classname, r.testname)).Nodup := by
  refine ⟨by decide, by decide, by decide⟩

/-- C7 counterexample: on `aliasRows` with no outcomes the two reporters
disagree — `grade_txt` produces one record where `gradescope_json` produces
two — so their join semantics are not identical. -/
theorem reporters_differ_cex :
    (grade_txt 10 aliasRows []).map (fun r => r.1.map Prod.snd) =
      some [{ name := "a:b:c", max_score := "20", score := .zero, output := none }] ∧
    (gradescope_json 10 aliasRows []).map (fun l => l.map Prod.snd) =
      some [{ name := "a:b:c", max_score := "10", score := .zero, output := none },
            { name := "a:b:c", max_score := "20", score := .zero, output := none }] ∧
    (grade_txt 10 aliasRows []).map (fun r => r.1.map Prod.snd) ≠
      (gradescope_json 10 aliasRows []).map (fun l => l.map Prod.snd) := by
  refine ⟨by decide, by decide, by decide⟩

/-- C8 counterexample: an outcome with pair key `("a", "b:c")`, absent from
the rubric's pair keys, does NOT make `grade_txt` fail: its composite
string `"a:b:c"` matches the rubric row `("a:b", "c")`, so the outcome is
silently joined to that entry and the run completes. -/
theorem grade_txt_alias_lookup_cex :
    grade_txt 10 [{ classname := "a:b", testname := "c", max_score := "5" }]
      [[{ classname := "a", name := "b:c", time := 0, status := none,
          failure := none, system_out := none }]] =
      some ([("a:b:c", { name := "a:b:c", max_score := "5", score := .str "5", output := none })],
        5, 5) ∧
    ("a", "b:c") ∉
      ([{ classname := "a:b", testname := "c", max_score := "5" }] : List CsvRow).map
        (fun r => (r.classname, r.testname)) := by
  refine ⟨by decide, by decide⟩

/-! ### Ordered-dictionary lemmas -/

theorem odGet?_odSet_self {κ α : Type} [DecidableEq κ] (l : List (κ × α)) (k : κ) (v : α) :
    odGet? (odSet l k v) k = some v := by
  induction l with
  | nil => simp [odSet, odGet?]
  | cons p rest ih =>
      obtain ⟨k', v'⟩ := p
      by_cases h : k' = k <;> simp [odSet, odGet?, h, ih]

theorem odGet?_odSet_ne {κ α : Type} [DecidableEq κ] (l : List (κ × α)) (k k' : κ) (v : α)
    (h : k' ≠ k) : odGet? (odSet l k v) k' = odGet? l k' := by
  induction l with
  | nil => simp [odSet, odGet?, Ne.symm h]
  | cons p rest ih =>
      obtain ⟨k'', v''⟩ := p
      by_cases hk : k'' = k
      · subst hk
        simp [odSet, odGet?, Ne.symm h]
      · simp only [odSet, if_neg hk]
        by_cases hk' : k'' = k' <;> simp [odGet?, hk', ih]

theorem odGet?_eq_none_iff {κ α : Type} [DecidableEq κ] (l : List (κ × α)) (k : κ) :
    odGet? l k = none ↔ k ∉ l.map Prod.fst := by
  induction l with
  | nil => simp [odGet?]
  | cons p rest ih =>
      obtain ⟨k', v⟩ := p
      by_cases h : k' = k
      · subst h; simp [odGet?]
      · rw [show odGet? ((k', v) :: rest) k = odGet? rest k by simp [odGet?, h], ih]
        simp [List.mem_cons, Ne.symm h]

theorem odGet?_mem_of_some {κ α : Type} [DecidableEq κ] {l : List (κ × α)} {k : κ} {v : α}
    (h : odGet? l k = some v) : k ∈ l.map Prod.fst := by
  by_contra hmem
  rw [← odGet?_eq_none_iff] at hmem
  rw [hmem] at h
  exact Option.noConfusion h

theorem map_fst_odSet_mem {κ α : Type} [DecidableEq κ] (l : List (κ × α)) (k : κ) (v : α)
    (h : k ∈ l.map Prod.fst) : (odSet l k v).map Prod.fst = l.map Prod.fst := by
  induction l with
  | nil => simp at h
  | cons p rest ih =>
      obtain ⟨k', v'⟩ := p
      by_cases hk : k' = k
      · simp [odSet, hk]
      · simp only [List.map_cons, List.mem_cons] at h
        rcases h with h | h
        · exact absurd h.symm hk
        · simp [odSet, hk, ih h]

theorem odSet_fresh {κ α : Type} [DecidableEq κ] (l : List (κ × α)) (k : κ) (v : α)
    (h : k ∉ l.map Prod.fst) : odSet l k v = l ++ [(k, v)] := by
  induction l with
  | nil => rfl
  | cons p rest ih =>
      obtain ⟨k', v'⟩ := p
      simp only [List.map_cons, List.mem_cons] at h
      push_neg at h
      simp [odSet, Ne.symm h.1, ih h.2]

theorem map_fst_odSet_subset {κ α : Type} [DecidableEq κ] (l : List (κ × α)) (k : κ) (v : α) :
    ∀ x ∈ (odSet l k v).map Prod.fst, x ∈ l.map Prod.fst ∨ x = k := by
  induction l with
  | nil => simp [odSet]
  | cons p rest ih =>
      obtain ⟨k', v'⟩ := p
      by_cases hk : k' = k
      · intro x hx
        simp only [odSet, if_pos hk, List.map_cons, List.mem_cons] at hx
        rcases hx with hx | hx
        · right; exact hx
        · left; simp [hx]
      · intro x hx
        simp only [odSet, if_neg hk, List.map_cons, List.mem_cons] at hx
        rcases hx with hx | hx
        · left; simp [hx]
        · rcases ih x hx with h | h
          · left; simp [h]
          · right; exact h

theorem odGet?_map_pair {κ : Type} [DecidableEq κ] (rkey : CsvRow → κ) (ent : CsvRow → GEntry)
    (rows : List CsvRow) (k : κ) :
    odGet? (rows.map fun r => (rkey r, ent r)) k =
      (rows.find? fun r => decide (rkey r = k)).map ent := by
  induction rows with
  | nil => rfl
  | cons r rest ih =>
      by_cases h : rkey r = k
      · simp [odGet?, List.find?_cons, h]
      · simp [odGet?, List.find?_cons, h, ih]

theorem find?_key_self_of_nodup {κ : Type} [DecidableEq κ] (rkey : CsvRow → κ)
    (rows : List CsvRow) (r : CsvRow) (hnd : (rows.map rkey).Nodup) (hr : r ∈ rows) :
    (rows.find? fun r' => decide (rkey r' = rkey r)) = some r := by
  induction rows with
  | nil => simp at hr
  | cons r0 rest ih =>
      simp only [List.map_cons, List.nodup_cons] at hnd
      rcases List.mem_cons.1 hr with h | h
      · subst h
        simp [List.find?_cons]
      · have hne : rkey r0 ≠ rkey r := by
          intro he
          exact hnd.1 (he ▸ List.mem_map_of_mem rkey h)
        simp [List.find?_cons, hne, ih hnd.2 h]

/-! ### Merge-step lemmas -/

theorem stepEnt_eq_none_iff {κ : Type} [DecidableEq κ] (key : TestResult → κ)
    (l : List (κ × GEntry)) (t : TestResult) :
    stepEnt key l t = none ↔ odGet? l (key t) = none := by
  unfold stepEnt
  cases odGet? l (key t) <;> simp

/-- The entry written by `stepEnt` before a diagnostic is attached. -/
def updEntry (t : TestResult) (e : GEntry) : GEntry :=
  { e with score := if t.success then .str e.max_score else .zero }

theorem stepEnt_some_eq {κ : Type} [DecidableEq κ] (key : TestResult → κ)
    {l : List (κ × GEntry)} {t : TestResult} {e : GEntry}
    (hget : odGet? l (key t) = some e) :
    stepEnt key l t = some (
      if t.output ≠ "" then
        odSet (odSet l (key t) (updEntry t e)) (key t)
          { updEntry t e with output := some t.output }
      else odSet l (key t) (updEntry t e)) := by
  unfold stepEnt
  rw [hget]
  rfl

theorem stepEnt_keys {κ : Type} [DecidableEq κ] (key : TestResult → κ)
    {l l' : List (κ × GEntry)} {t : TestResult}
    (h : stepEnt key l t = some l') : l'.map Prod.fst = l.map Prod.fst := by
  cases hget : odGet? l (key t) with
  | none =>
      rw [(stepEnt_eq_none_iff key l t).2 hget] at h
      exact Option.noConfusion h
  | some e =>
      rw [stepEnt_some_eq key hget] at h
      injection h with h
      subst h
      have hmem : key t ∈ l.map Prod.fst := odGet?_mem_of_some hget
      have h1 : (odSet l (key t) (updEntry t e)).map Prod.fst = l.map Prod.fst :=
        map_fst_odSet_mem l _ _ hmem
      by_cases ho : t.output ≠ ""
      · rw [if_pos ho, map_fst_odSet_mem _ _ _ (by rw [h1]; exact hmem), h1]
      · rw [if_neg ho]
        exact h1

theorem stepEnt_maxAt {κ : Type} [DecidableEq κ] (key : TestResult → κ)
    {l l' : List (κ × GEntry)} {t : TestResult}
    (h : stepEnt key l t = some l') (k : κ) :
    (odGet? l' k).map GEntry.max_score = (odGet? l k).map GEntry.max_score := by
  cases hget : odGet? l (key t) with
  | none =>
      rw [(stepEnt_eq_none_iff key l t).2 hget] at h
      exact Option.noConfusion h
  | some e =>
      rw [stepEnt_some_eq key hget] at h
      injection h with h
      subst h
      by_cases hk : key t = k
      · subst hk
        rw [hget]
        by_cases ho : t.output ≠ ""
        · rw [if_pos ho, odGet?_odSet_self]
          rfl
        · rw [if_neg ho, odGet?_odSet_self]
          rfl
      · have hk' : k ≠ key t := fun e => hk (Eq.symm e)
        by_cases ho : t.output ≠ ""
        · rw [if_pos ho, odGet?_odSet_ne _ _ _ _ hk', odGet?_odSet_ne _ _ _ _ hk']
        · rw [if_neg ho, odGet?_odSet_ne _ _ _ _ hk']

theorem stepEnt_untouched {κ : Type} [DecidableEq κ] (key : TestResult → κ)
    {l l' : List (κ × GEntry)} {t : TestResult} {k : κ}
    (hk : key t ≠ k) (h : stepEnt key l t = some l') :
    odGet? l' k = odGet? l k := by
  cases hget : odGet? l (key t) with
  | none =>
      rw [(stepEnt_eq_none_iff key l t).2 hget] at h
      exact Option.noConfusion h
  | some e =>
      rw [stepEnt_some_eq key hget] at h
      injection h with h
      subst h
      have hk' : k ≠ key t := fun e => hk (Eq.symm e)
      by_cases ho : t.output ≠ ""
      · rw [if_pos ho, odGet?_odSet_ne _ _ _ _ hk', odGet?_odSet_ne _ _ _ _ hk']
      · rw [if_neg ho, odGet?_odSet_ne _ _ _ _ hk']

/-! ### Merge-fold lemmas -/

theorem foldEnt_keys {κ : Type} [DecidableEq κ] (key : TestResult → κ)
    (os : List TestResult) :
    ∀ (l l' : List (κ × GEntry)), os.foldlM (stepEnt key) l = some l' →
      l'.map Prod.fst = l.map Prod.fst := by
  induction os with
  | nil =>
      intro l l' h
      simp only [List.foldlM_nil, pure, Option.some_inj] at h
      rw [h]
  | cons o rest ih =>
      intro l l' h
      rw [List.foldlM_cons] at h
      cases hs : stepEnt key l o with
      | none => rw [hs] at h; exact Option.noConfusion h
      | some l1 =>
          rw [hs] at h
          simp only [Option.bind_eq_bind, Option.some_bind] at h
          rw [ih l1 l' h, stepEnt_keys key hs]

theorem foldEnt_maxAt {κ : Type} [DecidableEq κ] (key : TestResult → κ)
    (os : List TestResult) :
    ∀ (l l' : List (κ × GEntry)), os.foldlM (stepEnt key) l = some l' → ∀ k,
      (odGet? l' k).map GEntry.max_score = (odGet? l k).map GEntry.max_score := by
  induction os with
  | nil =>
      intro l l' h k
      simp only [List.foldlM_nil, pure, Option.some_inj] at h
      rw [h]
  | cons o rest ih =>
      intro l l' h k
      rw [List.foldlM_cons] at h
      cases hs : stepEnt key l o with
      | none => rw [hs] at h; exact Option.noConfusion h
      | some l1 =>
          rw [hs] at h
          simp only [Option.bind_eq_bind, Option.some_bind] at h
          rw [ih l1 l' h k, stepEnt_maxAt key hs k]

theorem foldEnt_untouched {κ : Type} [DecidableEq κ] (key : TestResult → κ)
    (os : List TestResult) :
    ∀ (l l' : List (κ × GEntry)) (k : κ), (∀ o ∈ os, key o ≠ k) →
      os.foldlM (stepEnt key) l = some l' → odGet? l' k = odGet? l k := by
  induction os with
  | nil =>
      intro l l' k _ h
      simp only [List.foldlM_nil, pure, Option.some_inj] at h
      rw [h]
  | cons o rest ih =>
      intro l l' k hko h
      rw [List.foldlM_cons] at h
      cases hs : stepEnt key l o with
      | none => rw [hs] at h; exact Option.noConfusion h
      | some l1 =>
          rw [hs] at h
          simp only [Option.bind_eq_bind, Option.some_bind] at h
          rw [ih l1 l' k (fun o' ho' => hko o' (List.mem_cons_of_mem o ho')) h,
            stepEnt_untouched key (hko o (List.mem_cons_self o rest)) hs]

theorem foldEnt_absent {κ : Type} [DecidableEq κ] (key : TestResult → κ)
    (os : List TestResult) :
    ∀ (l : List (κ × GEntry)) (o : TestResult), o ∈ os →
      odGet? l (key o) = none → os.foldlM (stepEnt key) l = none := by
  induction os with
  | nil => intro l o ho _; simp at ho
  | cons o0 rest ih =>
      intro l o ho hget
      rw [List.foldlM_cons]
      cases hs : stepEnt key l o0 with
      | none => simp
      | some l1 =>
          simp only [Option.bind_eq_bind, Option.some_bind]
          rcases List.mem_cons.1 ho with h | h
          · subst h
            rw [(stepEnt_eq_none_iff key l o).2 hget] at hs
            exact Option.noConfusion hs
          · refine ih l1 o h ?_
            rw [odGet?_eq_none_iff] at hget ⊢
            rw [stepEnt_keys key hs]
            exact hget

/-! ### Rubric-loading lemmas -/

theorem loadList_aux_nodup {κ : Type} [DecidableEq κ] (rkey : CsvRow → κ) (rows : List CsvRow) :
    ∀ acc : List (κ × GEntry),
      (∀ r ∈ rows, rkey r ∉ acc.map Prod.fst) → (rows.map rkey).Nodup →
      rows.foldl (fun l row => odSet l (rkey row) (entry0 row)) acc
        = acc ++ rows.map (fun r => (rkey r, entry0 r)) := by
  induction rows with
  | nil => intro acc _ _; simp
  | cons r rest ih =>
      intro acc hfresh hnd
      simp only [List.map_cons, List.nodup_cons] at hnd
      rw [List.foldl_cons, odSet_fresh acc _ _ (hfresh r (List.mem_cons_self r rest))]
      rw [ih (acc ++ [(rkey r, entry0 r)]) ?fresh hnd.2]
      · simp
      case fresh =>
          intro r' hr'
          simp only [List.map_append, List.mem_append, List.map_cons, List.map_nil,
            List.mem_singleton]
          push_neg
          constructor
          · exact hfresh r' (List.mem_cons_of_mem r hr')
          · intro he
            exact hnd.1 (he ▸ List.mem_map_of_mem rkey hr')

theorem loadList_eq_of_nodup {κ : Type} [DecidableEq κ] (rkey : CsvRow → κ)
    (rows : List CsvRow) (hnd : (rows.map rkey).Nodup) :
    loadList rkey rows = rows.map (fun r => (rkey r, entry0 r)) := by
  unfold loadList
  rw [loadList_aux_nodup rkey rows [] (by simp) hnd]
  simp

theorem loadList_keys_aux {κ : Type} [DecidableEq κ] (rkey : CsvRow → κ)
    (rows : List CsvRow) :
    ∀ (acc : List (κ × GEntry)) (k : κ),
      k ∈ (rows.foldl (fun l row => odSet l (rkey row) (entry0 row)) acc).map Prod.fst →
      k ∈ acc.map Prod.fst ∨ k ∈ rows.map rkey := by
  induction rows with
  | nil => intro acc k h; left; simpa using h
  | cons r rest ih =>
      intro acc k h
      rw [List.foldl_cons] at h
      rcases ih (odSet acc (rkey r) (entry0 r)) k h with h1 | h1
      · rcases map_fst_odSet_subset acc (rkey r) (entry0 r) k h1 with h2 | h2
        · left; exact h2
        · right; simp [h2]
      · right; simp [h1]

theorem loadList_keys_subset {κ : Type} [DecidableEq κ] (rkey : CsvRow → κ)
    (rows : List CsvRow) (k : κ) (h : k ∈ (loadList rkey rows).map Prod.fst) :
    k ∈ rows.map rkey := by
  rcases loadList_keys_aux rkey rows [] k h with h1 | h1
  · simp at h1
  · exact h1

theorem loadTxt_aux (rows : List CsvRow) :
    ∀ (acc : List (String × GEntry)) (t0 : ℕ) (l : List (String × GEntry)) (tm : ℕ),
      rows.foldlM loadStepTxt (acc, t0) = some (l, tm) →
      l = rows.foldl
        (fun l row => odSet l (comp row.classname row.testname) (entry0 row)) acc := by
  induction rows with
  | nil =>
      intro acc t0 l tm h
      simp only [List.foldlM_nil, pure, Option.some_inj, Prod.mk.injEq] at h
      rw [List.foldl_nil, h.1]
  | cons r rest ih =>
      intro acc t0 l tm h
      rw [List.foldlM_cons] at h
      cases hp : pyInt r.max_score with
      | none =>
          rw [show loadStepTxt (acc, t0) r = none by simp [loadStepTxt, hp]] at h
          exact Option.noConfusion h
      | some m =>
          rw [show loadStepTxt (acc, t0) r =
              some (odSet acc (comp r.classname r.testname) (entry0 r), t0 + m) by
            simp [loadStepTxt, hp]] at h
          simp only [Option.bind_eq_bind, Option.some_bind] at h
          rw [List.foldl_cons]
          exact ih _ _ _ _ h

theorem loadTxt_some {rows : List CsvRow} {l : List (String × GEntry)} {tm : ℕ}
    (h : loadTxt rows = some (l, tm)) :
    l = loadList (fun r => comp r.classname r.testname) rows :=
  loadTxt_aux rows [] 0 l tm h

/-! ### `grade_txt` total bookkeeping -/

/-- The amount `total += int(score)` adds for one outcome, read off a
dictionary state: the entry's `max_score` parsed as an int on success, `0`
on failure or (unreachably, since the lookup is fatal) on a missing key. -/
def contribL (l : List (String × GEntry)) (t : TestResult) : ℕ :=
  match (odGet? l (txtKey t)).map GEntry.max_score with
  | some m => if t.success then (pyInt m).getD 0 else 0
  | none => 0

/-- The same amount, read off the rubric rows directly: the first row whose
composite key matches the outcome supplies the `max_score`. -/
def contribSpec (rows : List CsvRow) (t : TestResult) : ℕ :=
  match rows.find? (fun r => decide (comp r.classname r.testname = txtKey t)) with
  | some r => if t.success then (pyInt r.max_score).getD 0 else 0
  | none => 0

theorem contribL_congr {l1 l2 : List (String × GEntry)}
    (h : ∀ k, (odGet? l1 k).map GEntry.max_score = (odGet? l2 k).map GEntry.max_score)
    (t : TestResult) : contribL l1 t = contribL l2 t := by
  unfold contribL
  rw [h (txtKey t)]

theorem contribL_loadList_eq (rows : List CsvRow)
    (hnd : (rows.map fun r => comp r.classname r.testname).Nodup) (t : TestResult) :
    contribL (loadList (fun r => comp r.classname r.testname) rows) t
      = contribSpec rows t := by
  unfold contribL contribSpec
  rw [loadList_eq_of_nodup _ _ hnd, odGet?_map_pair, Option.map_map]
  cases hf : rows.find? (fun r => decide (comp r.classname r.testname = txtKey t)) with
  | none => simp
  | some r => simp [entry0]

theorem stepTxt_bridge {l : List (String × GEntry)} {tt : ℕ} {t : TestResult}
    {st' : List (String × GEntry) × ℕ} (h : stepTxt (l, tt) t = some st') :
    stepEnt txtKey l t = some st'.1 ∧ st'.2 = tt + contribL l t := by
  cases hget : odGet? l (txtKey t) with
  | none =>
      unfold stepTxt at h
      rw [hget] at h
      exact Option.noConfusion h
  | some e =>
      unfold stepTxt at h
      rw [hget] at h
      simp only [Option.bind_eq_bind, Option.some_bind] at h
      cases hs : t.success with
      | true =>
          simp only [if_pos hs] at h
          cases hp : pyInt e.max_score with
          | none =>
              rw [hp] at h
              exact Option.noConfusion h
          | some m =>
              rw [hp] at h
              simp only [Option.some_bind, pure, Option.some_inj] at h
              subst h
              constructor
              · rw [stepEnt_some_eq txtKey hget]
                simp only [updEntry, if_pos hs]
              · unfold contribL
                rw [hget]
                simp [hs, hp]
      | false =>
          simp only [hs, Bool.false_eq_true, if_false, pure, Option.some_bind,
            Option.some_inj] at h
          subst h
          constructor
          · rw [stepEnt_some_eq txtKey hget]
            simp only [updEntry, hs, Bool.false_eq_true, if_false]
          · unfold contribL
            rw [hget]
            simp [hs]

theorem txtFold_bridge (os : List TestResult) :
    ∀ (l : List (String × GEntry)) (tt : ℕ) (res : List (String × GEntry) × ℕ),
      os.foldlM stepTxt (l, tt) = some res →
      os.foldlM (stepEnt txtKey) l = some res.1 ∧
      res.2 = tt + (os.map (contribL l)).sum := by
  induction os with
  | nil =>
      intro l tt res h
      simp only [List.foldlM_nil, pure, Option.some_inj] at h
      subst h
      simp
  | cons o rest ih =>
      intro l tt res h
      rw [List.foldlM_cons] at h
      cases hs : stepTxt (l, tt) o with
      | none =>
          rw [hs] at h
          exact Option.noConfusion h
      | some st1 =>
          rw [hs] at h
          simp only [Option.bind_eq_bind, Option.some_bind] at h
          obtain ⟨l1, t1⟩ := st1
          obtain ⟨hstep1, hstep2⟩ := stepTxt_bridge hs
          obtain ⟨hf, hsum⟩ := ih l1 t1 res h
          have hmax := stepEnt_maxAt txtKey hstep1
          constructor
          · rw [List.foldlM_cons, hstep1]
            simpa using hf
          · simp only at hstep2 hmax
            rw [hsum]
            have hc : rest.map (contribL l1) = rest.map (contribL l) :=
              List.map_congr_left (fun o' _ => contribL_congr hmax o')
            rw [hc, List.map_cons, List.sum_cons, hstep2]
            omega

theorem grade_txt_some {timeout : ℚ} {rows : List CsvRow} {files : List (List Testcase)}
    {resT : List (String × GEntry) × ℕ × ℕ}
    (hT : grade_txt timeout rows files = some resT) :
    ∃ l0 tm, loadTxt rows = some (l0, tm) ∧
      (files.flatMap (process_junit timeout)).foldlM stepTxt (l0, 0)
        = some (resT.1, resT.2.1) ∧
      resT.2.2 = tm := by
  unfold grade_txt at hT
  cases hload : loadTxt rows with
  | none =>
      rw [hload] at hT
      exact Option.noConfusion hT
  | some p =>
      obtain ⟨l0, tm⟩ := p
      rw [hload] at hT
      simp only [Option.bind_eq_bind, Option.some_bind] at hT
      cases hfold : (files.flatMap (process_junit timeout)).foldlM stepTxt (l0, 0) with
      | none =>
          rw [hfold] at hT
          exact Option.noConfusion hT
      | some q =>
          obtain ⟨l, tot⟩ := q
          rw [hfold] at hT
          have hT' : some ((l, tot, tm) : List (String × GEntry) × ℕ × ℕ) = some resT := hT
          injection hT' with hT'
          refine ⟨l0, tm, rfl, ?_, ?_⟩
          · rw [← hT']
            exact hfold
          · rw [← hT']

/-- C6 amended: for every completing grading run, every rubric entry appears
exactly once in the output, in rubric-file order, and an entry mentioned by
no outcome keeps score 0 (and no diagnostic) — where "mentioned" and
"distinct" are judged by the key each reporter actually uses: the
`(classname, testname)` pair for `gradescope`, but the composite string
`classname + ":" + testname` for `grade-txt` (rubric rows whose composites
collide collapse there).  `grade_txt`'s reported total is the sum, over the
outcomes of the supplied reports only, of each outcome's own score. -/
theorem grade_join_completeness
    (timeout : ℚ) (rows : List CsvRow) (files : List (List Testcase))
    (resT : List (String × GEntry) × ℕ × ℕ) (resG : List ((String × String) × GEntry))
    (hT : grade_txt timeout rows files = some resT)
    (hG : gradescope_json timeout rows files = some resG)
    (hKt : (rows.map fun r => comp r.classname r.testname).Nodup)
    (hKg : (rows.map fun r => (r.classname, r.testname)).Nodup) :
    resT.1.map Prod.fst = rows.map (fun r => comp r.classname r.testname) ∧
    resG.map Prod.fst = rows.map (fun r => (r.classname, r.testname)) ∧
    (∀ r ∈ rows,
      (∀ o ∈ files.flatMap (process_junit timeout),
        txtKey o ≠ comp r.classname r.testname) →
      odGet? resT.1 (comp r.classname r.testname) = some (entry0 r)) ∧
    (∀ r ∈ rows,
      (∀ o ∈ files.flatMap (process_junit timeout),
        gsKey o ≠ (r.classname, r.testname)) →
      odGet? resG (r.classname, r.testname) = some (entry0 r)) ∧
    resT.2.1 = ((files.flatMap (process_junit timeout)).map (contribSpec rows)).sum := by
  obtain ⟨l0, tm, hload, hfold, htm⟩ := grade_txt_some hT
  have hl0 : l0 = loadList (fun r => comp r.classname r.testname) rows := loadTxt_some hload
  obtain ⟨hfE, htot⟩ := txtFold_bridge _ _ _ _ hfold
  simp only at hfE htot
  unfold gradescope_json at hG
  have hkeys0 : l0.map Prod.fst = rows.map fun r => comp r.classname r.testname := by
    rw [hl0, loadList_eq_of_nodup _ _ hKt, List.map_map]
    rfl
  refine ⟨?_, ?_, ?_, ?_, ?_⟩
  · rw [foldEnt_keys txtKey _ _ _ hfE, hkeys0]
  · rw [foldEnt_keys gsKey _ _ _ hG,
      loadList_eq_of_nodup (fun r => (r.classname, r.testname)) rows hKg, List.map_map]
    rfl
  · intro r hr hno
    rw [foldEnt_untouched txtKey _ _ _ _ hno hfE, hl0,
      loadList_eq_of_nodup _ _ hKt, odGet?_map_pair,
      find?_key_self_of_nodup _ _ r hKt hr]
    rfl
  · intro r hr hno
    rw [foldEnt_untouched gsKey _ _ _ _ hno hG,
      loadList_eq_of_nodup (fun r => (r.classname, r.testname)) rows hKg, odGet?_map_pair,
      find?_key_self_of_nodup _ _ r hKg hr]
    rfl
  · rw [htot, Nat.zero_add]
    congr 1
    refine List.map_congr_left fun o _ => ?_
    rw [hl0, contribL_loadList_eq rows hKt o]

/-- Witness data for the C6 amended theorem: a rubric of two tests where
only the first appears in the report (the spec's Scenario 5). -/
def c6Rows : List CsvRow :=
  [{ classname := "a", testname := "t1", max_score := "50" },
   { classname := "a", testname := "t2", max_score := "50" }]

def c6Files : List (List Testcase) :=
  [[{ classname := "a", name := "t1", time := 0, status := none,
      failure := none, system_out := none }]]

def c6ResT : List (String × GEntry) × ℕ × ℕ :=
  ([("a:t1", { name := "a:t1", max_score := "50", score := .str "50", output := none }),
    ("a:t2", { name := "a:t2", max_score := "50", score := .zero, output := none })],
   50, 100)

def c6ResG : List ((String × String) × GEntry) :=
  [(("a", "t1"), { name := "a:t1", max_score := "50", score := .str "50", output := none }),
   (("a", "t2"), { name := "a:t2", max_score := "50", score := .zero, output := none })]

/-- C6 amended witness (the spec's Scenario 5): a rubric of two tests where
only the first appears in the report -- the unmentioned test keeps score 0,
both entries appear once in rubric order, and the total is the mentioned
test's 50. -/
theorem grade_join_completeness_witness :
    c6ResT.1.map Prod.fst = c6Rows.map (fun r => comp r.classname r.testname) ∧
    c6ResG.map Prod.fst = c6Rows.map (fun r => (r.classname, r.testname)) ∧
    (∀ r ∈ c6Rows,
      (∀ o ∈ c6Files.flatMap (process_junit 10),
        txtKey o ≠ comp r.classname r.testname) →
      odGet? c6ResT.1 (comp r.classname r.testname) = some (entry0 r)) ∧
    (∀ r ∈ c6Rows,
      (∀ o ∈ c6Files.flatMap (process_junit 10),
        gsKey o ≠ (r.classname, r.testname)) →
      odGet? c6ResG (r.classname, r.testname) = some (entry0 r)) ∧
    c6ResT.2.1 = ((c6Files.flatMap (process_junit 10)).map (contribSpec c6Rows)).sum :=
  grade_join_completeness 10 c6Rows c6Files c6ResT c6ResG
    (by decide) (by decide) (by decide) (by decide)

/-! ### Key-translation simulation between the two reporters

`grade_txt` keys its dictionary by the composite string, `gradescope_json`
by the `(classname, testname)` pair.  When the composite map is injective on
the keys involved, every dictionary operation commutes with the key
translation, so the two runs stay in lock step. -/

theorem odGet?_map_inj {κ κ' α : Type} [DecidableEq κ] [DecidableEq κ'] (f : κ → κ')
    (l : List (κ × α)) (k : κ)
    (hinj : ∀ k' ∈ l.map Prod.fst, f k' = f k → k' = k) :
    odGet? (l.map fun p => (f p.1, p.2)) (f k) = odGet? l k := by
  induction l with
  | nil => rfl
  | cons p rest ih =>
      obtain ⟨k0, v0⟩ := p
      by_cases h : k0 = k
      · subst h
        simp [odGet?]
      · have hf : f k0 ≠ f k := fun he => h (hinj k0 (by simp) he)
        simp only [List.map_cons, odGet?, if_neg hf, if_neg h]
        exact ih fun k' hk' he => hinj k' (by simp [hk']) he

theorem odSet_map_inj {κ κ' α : Type} [DecidableEq κ] [DecidableEq κ'] (f : κ → κ')
    (l : List (κ × α)) (k : κ) (v : α)
    (hinj : ∀ k' ∈ l.map Prod.fst, f k' = f k → k' = k) :
    odSet (l.map fun p => (f p.1, p.2)) (f k) v
      = (odSet l k v).map fun p => (f p.1, p.2) := by
  induction l with
  | nil => rfl
  | cons p rest ih =>
      obtain ⟨k0, v0⟩ := p
      by_cases h : k0 = k
      · subst h
        simp [odSet]
      · have hf : f k0 ≠ f k := fun he => h (hinj k0 (by simp) he)
        simp only [List.map_cons, odSet, if_neg hf, if_neg h, List.cons.injEq, true_and]
        exact ih fun k' hk' he => hinj k' (by simp [hk']) he

theorem stepEnt_map_inj {κ κ' : Type} [DecidableEq κ] [DecidableEq κ'] (f : κ → κ')
    (key : TestResult → κ) (l : List (κ × GEntry)) (t : TestResult)
    (hinj : ∀ k' ∈ l.map Prod.fst, f k' = f (key t) → k' = key t) :
    stepEnt (fun o => f (key o)) (l.map fun p => (f p.1, p.2)) t
      = (stepEnt key l t).map (List.map fun p => (f p.1, p.2)) := by
  cases hg : odGet? l (key t) with
  | none =>
      have h1 : stepEnt key l t = none := (stepEnt_eq_none_iff key l t).2 hg
      have h2 : stepEnt (fun o => f (key o)) (l.map fun p => (f p.1, p.2)) t = none := by
        refine (stepEnt_eq_none_iff _ _ t).2 ?_
        show odGet? (l.map fun p => (f p.1, p.2)) (f (key t)) = none
        rw [odGet?_map_inj f l (key t) hinj, hg]
      rw [h1, h2]
      rfl
  | some e =>
      have h1 := stepEnt_some_eq key hg
      have hgm : odGet? (l.map fun p => (f p.1, p.2)) ((fun o => f (key o)) t) = some e := by
        show odGet? (l.map fun p => (f p.1, p.2)) (f (key t)) = some e
        rw [odGet?_map_inj f l (key t) hinj, hg]
      have h2 := stepEnt_some_eq (fun o => f (key o)) hgm
      rw [h1, h2, Option.map_some']
      have hset1 := odSet_map_inj f l (key t) (updEntry t e) hinj
      have hinj1 : ∀ k' ∈ (odSet l (key t) (updEntry t e)).map Prod.fst,
          f k' = f (key t) → k' = key t := by
        intro k' hk' he
        rcases map_fst_odSet_subset l (key t) (updEntry t e) k' hk' with h | h
        · exact hinj k' h he
        · exact h
      have hset2 := odSet_map_inj f (odSet l (key t) (updEntry t e)) (key t)
        { updEntry t e with output := some t.output } hinj1
      congr 1
      show (if t.output ≠ "" then
          odSet (odSet (l.map fun p => (f p.1, p.2)) (f (key t)) (updEntry t e)) (f (key t))
            { updEntry t e with output := some t.output }
        else odSet (l.map fun p => (f p.1, p.2)) (f (key t)) (updEntry t e)) = _
      by_cases ho : t.output ≠ ""
      · rw [if_pos ho, if_pos ho, hset1, hset2]
      · rw [if_neg ho, if_neg ho, hset1]

theorem foldEnt_map_inj {κ κ' : Type} [DecidableEq κ] [DecidableEq κ'] (f : κ → κ')
    (key : TestResult → κ) (os : List TestResult) :
    ∀ l : List (κ × GEntry),
      (∀ a ∈ l.map Prod.fst ++ os.map key, ∀ b ∈ l.map Prod.fst ++ os.map key,
        f a = f b → a = b) →
      os.foldlM (stepEnt fun o => f (key o)) (l.map fun p => (f p.1, p.2))
        = (os.foldlM (stepEnt key) l).map (List.map fun p => (f p.1, p.2)) := by
  induction os with
  | nil =>
      intro l _
      simp
  | cons o rest ih =>
      intro l hinj
      rw [List.foldlM_cons, List.foldlM_cons]
      have hstep := stepEnt_map_inj f key l o (by
        intro k' hk' he
        exact hinj k' (List.mem_append_left _ hk')
          (key o) (List.mem_append_right _ (by simp)) he)
      rw [hstep]
      cases hs : stepEnt key l o with
      | none => simp
      | some l1 =>
          simp only [Option.map_some', Option.bind_eq_bind, Option.some_bind]
          refine ih l1 ?_
          intro a ha b hb
          have hkeys := stepEnt_keys key hs
          refine hinj a ?_ b ?_
          · rcases List.mem_append.1 ha with h | h
            · exact List.mem_append_left _ (hkeys ▸ h)
            · exact List.mem_append_right _ (by simp [h])
          · rcases List.mem_append.1 hb with h | h
            · exact List.mem_append_left _ (hkeys ▸ h)
            · exact List.mem_append_right _ (by simp [h])

theorem loadList_map_aux {κ κ' : Type} [DecidableEq κ] [DecidableEq κ'] (f : κ → κ')
    (rkey : CsvRow → κ) (rows : List CsvRow) :
    ∀ acc : List (κ × GEntry),
      (∀ a ∈ acc.map Prod.fst ++ rows.map rkey, ∀ b ∈ acc.map Prod.fst ++ rows.map rkey,
        f a = f b → a = b) →
      rows.foldl (fun l row => odSet l (f (rkey row)) (entry0 row))
          (acc.map fun p => (f p.1, p.2))
        = (rows.foldl (fun l row => odSet l (rkey row) (entry0 row)) acc).map
            fun p => (f p.1, p.2) := by
  induction rows with
  | nil =>
      intro acc _
      simp
  | cons r rest ih =>
      intro acc hinj
      rw [List.foldl_cons, List.foldl_cons,
        odSet_map_inj f acc (rkey r) (entry0 r) (by
          intro k' hk' he
          exact hinj k' (List.mem_append_left _ hk')
            (rkey r) (List.mem_append_right _ (by simp)) he)]
      refine ih (odSet acc (rkey r) (entry0 r)) ?_
      intro a ha b hb
      have hmem : ∀ x, x ∈ (odSet acc (rkey r) (entry0 r)).map Prod.fst ++ rest.map rkey →
          x ∈ acc.map Prod.fst ++ (r :: rest).map rkey := by
        intro x hx
        rcases List.mem_append.1 hx with h | h
        · rcases map_fst_odSet_subset acc (rkey r) (entry0 r) x h with h1 | h1
          · exact List.mem_append_left _ h1
          · exact List.mem_append_right _ (by simp [h1])
        · exact List.mem_append_right _ (by simp [h])
      exact hinj a (hmem a ha) b (hmem b hb)

theorem loadList_map_inj {κ κ' : Type} [DecidableEq κ] [DecidableEq κ'] (f : κ → κ')
    (rkey : CsvRow → κ) (rows : List CsvRow)
    (hinj : ∀ a ∈ rows.map rkey, ∀ b ∈ rows.map rkey, f a = f b → a = b) :
    loadList (fun r => f (rkey r)) rows = (loadList rkey rows).map fun p => (f p.1, p.2) := by
  unfold loadList
  rw [show ([] : List (κ' × GEntry)) = ([] : List (κ × GEntry)).map fun p => (f p.1, p.2)
    from rfl]
  exact loadList_map_aux f rkey rows [] (by simpa using hinj)

/-- C7 amended: the reporters do not share one join key — `grade_txt` joins
on the composite string `classname + ":" + testname` while `gradescope`
joins on the `(classname, testname)` pair — but whenever the composite
function is injective on the rubric and outcome keys involved (in
particular, whenever class names contain no colon), every completing
`grade_txt` run corresponds to a completing `gradescope` run producing the
same per-entry records (name, score, max_score, diagnostic) in the same
order, with each `grade_txt` key the composite of the `gradescope` key. -/
theorem reporters_agree (timeout : ℚ) (rows : List CsvRow) (files : List (List Testcase))
    (resT : List (String × GEntry) × ℕ × ℕ)
    (hT : grade_txt timeout rows files = some resT)
    (hinj : ∀ a ∈ rows.map (fun r => (r.classname, r.testname))
              ++ (files.flatMap (process_junit timeout)).map gsKey,
            ∀ b ∈ rows.map (fun r => (r.classname, r.testname))
              ++ (files.flatMap (process_junit timeout)).map gsKey,
            comp a.1 a.2 = comp b.1 b.2 → a = b) :
    ∃ resG, gradescope_json timeout rows files = some resG ∧
      resT.1 = resG.map (fun p => (comp p.1.1 p.1.2, p.2)) ∧
      resT.1.map Prod.snd = resG.map Prod.snd := by
  obtain ⟨l0, tm, hload, hfold, htm⟩ := grade_txt_some hT
  obtain ⟨hfE, htot⟩ := txtFold_bridge _ _ _ _ hfold
  simp only at hfE
  have hl0 : l0 = loadList (fun r => comp r.classname r.testname) rows := loadTxt_some hload
  have hload_inj : loadList (fun r => comp r.classname r.testname) rows
      = (loadList (fun r => (r.classname, r.testname)) rows).map
          fun p => (comp p.1.1 p.1.2, p.2) := by
    have := loadList_map_inj (fun p : String × String => comp p.1 p.2)
      (fun r => (r.classname, r.testname)) rows
      (fun a ha b hb => hinj a (List.mem_append_left _ ha) b (List.mem_append_left _ hb))
    exact this
  have hfold_inj := foldEnt_map_inj (fun p : String × String => comp p.1 p.2) gsKey
    (files.flatMap (process_junit timeout))
    (loadList (fun r => (r.classname, r.testname)) rows)
    (by
      intro a ha b hb
      have hsub : ∀ x, x ∈ (loadList (fun r => (r.classname, r.testname)) rows).map Prod.fst
            ++ (files.flatMap (process_junit timeout)).map gsKey →
          x ∈ rows.map (fun r => (r.classname, r.testname))
            ++ (files.flatMap (process_junit timeout)).map gsKey := by
        intro x hx
        rcases List.mem_append.1 hx with h | h
        · exact List.mem_append_left _ (loadList_keys_subset _ rows x h)
        · exact List.mem_append_right _ h
      exact hinj a (hsub a ha) b (hsub b hb))
  have hkeyfun : (stepEnt fun o => comp (gsKey o).1 (gsKey o).2) = stepEnt txtKey := rfl
  rw [hkeyfun] at hfold_inj
  rw [← hload_inj, ← hl0, hfE] at hfold_inj
  cases hg : (files.flatMap (process_junit timeout)).foldlM (stepEnt gsKey)
      (loadList (fun r => (r.classname, r.testname)) rows) with
  | none =>
      rw [hg] at hfold_inj
      exact Option.noConfusion hfold_inj
  | some resG =>
      rw [hg] at hfold_inj
      simp only [Option.map_some', Option.some_inj] at hfold_inj
      refine ⟨resG, ?_, ?_, ?_⟩
      · unfold gradescope_json
        exact hg
      · exact hfold_inj
      · rw [hfold_inj, List.map_map]
        rfl

/-- Witness data for the C7 amended theorem: one colon-free rubric row
mentioned by one passing outcome. -/
def c7Rows : List CsvRow := [{ classname := "a", testname := "t1", max_score := "50" }]

def c7Files : List (List Testcase) :=
  [[{ classname := "a", name := "t1", time := 0, status := none,
      failure := none, system_out := none }]]

def c7ResT : List (String × GEntry) × ℕ × ℕ :=
  ([("a:t1", { name := "a:t1", max_score := "50", score := .str "50", output := none })],
   50, 50)

/-- C7 amended witness: on colon-free names the two reporters produce the
same association. -/
theorem reporters_agree_witness :
    ∃ resG, gradescope_json 10 c7Rows c7Files = some resG ∧
      c7ResT.1 = resG.map (fun p => (comp p.1.1 p.1.2, p.2)) ∧
      c7ResT.1.map Prod.snd = resG.map Prod.snd :=
  reporters_agree 10 c7Rows c7Files c7ResT (by decide) (by decide)

/-- C8 amended: a lookup miss is fatal, but each reporter misses on its own
key.  In `gradescope`, an outcome whose `(classname, testname)` pair is
absent from the rubric's pairs aborts the run.  In `grade_txt`, the lookup
is by the composite string, so the run aborts when the outcome's composite
`classname + ":" + testname` is absent from the rubric's composites; a
pair-absent outcome whose composite collides with some rubric row's
composite is instead silently joined to that row (see the counterexample). -/
theorem unknown_key_fatal (timeout : ℚ) (rows : List CsvRow) (files : List (List Testcase))
    (o : TestResult) (ho : o ∈ files.flatMap (process_junit timeout)) :
    (gsKey o ∉ rows.map (fun r => (r.classname, r.testname)) →
      gradescope_json timeout rows files = none) ∧
    (txtKey o ∉ rows.map (fun r => comp r.classname r.testname) →
      grade_txt timeout rows files = none) := by
  constructor
  · intro habs
    unfold gradescope_json
    refine foldEnt_absent gsKey _ _ o ho ?_
    rw [odGet?_eq_none_iff]
    intro hmem
    exact habs (loadList_keys_subset _ rows _ hmem)
  · intro habs
    unfold grade_txt
    cases hload : loadTxt rows with
    | none => rfl
    | some p =>
        obtain ⟨l0, tm⟩ := p
        simp only [Option.bind_eq_bind, Option.some_bind]
        have hl0 : l0 = loadList (fun r => comp r.classname r.testname) rows :=
          loadTxt_some hload
        cases hfold : (files.flatMap (process_junit timeout)).foldlM stepTxt (l0, 0) with
        | none => rfl
        | some q =>
            exfalso
            obtain ⟨lq, tq⟩ := q
            obtain ⟨hfE, htot⟩ := txtFold_bridge _ _ _ _ hfold
            have hnone : (files.flatMap (process_junit timeout)).foldlM
                (stepEnt txtKey) l0 = none := by
              refine foldEnt_absent txtKey _ _ o ho ?_
              rw [odGet?_eq_none_iff, hl0]
              intro hmem
              exact habs (loadList_keys_subset _ rows _ hmem)
            rw [hnone] at hfE
            exact Option.noConfusion hfE

/-- C8 amended witness: an outcome `("x", "y")` mentioned in no rubric row
aborts both reporters. -/
theorem unknown_key_fatal_witness :
    gradescope_json 10 [{ classname := "a", testname := "b", max_score := "5" }]
      [[{ classname := "x", name := "y", time := 0, status := none,
          failure := none, system_out := none }]] = none ∧
    grade_txt 10 [{ classname := "a", testname := "b", max_score := "5" }]
      [[{ classname := "x", name := "y", time := 0, status := none,
          failure := none, system_out := none }]] = none :=
  ⟨(unknown_key_fatal 10 [{ classname := "a", testname := "b", max_score := "5" }]
      [[{ classname := "x", name := "y", time := 0, status := none,
          failure := none, system_out := none }]]
      { classname := "x", name := "y", success := true, output := "" }
      (by decide)).1 (by decide),
   (unknown_key_fatal 10 [{ classname := "a", testname := "b", max_score := "5" }]
      [[{ classname := "x", name := "y", time := 0, status := none,
          failure := none, system_out := none }]]
      { classname := "x", name := "y", success := true, output := "" }
      (by decide)).2 (by decide)⟩

/-! ### The gradescope JSON document

`gradescope_json` prints a hand-assembled document: a literal skeleton, the
`json.dumps` serialisations of the records joined by `",\n"`, and a closing
skeleton.  The emitted text is modelled below as a `List Char`. -/

/-- The opening-brace character (spelled via its code point). -/
def lbrace : Char := '\x7b'

/-- The closing-brace character. -/
def rbrace : Char := '\x7d'

/-- Lower-case hexadecimal digit, as produced by CPython's `\uXXXX` escapes. -/
def hexDigitChar (n : ℕ) : Char :=
  if n < 10 then Char.ofNat (48 + n) else Char.ofNat (87 + n)

/-- Four-digit lower-case hexadecimal rendering of `n` (mod 2^16). -/
def hex4 (n : ℕ) : List Char :=
  [hexDigitChar (n / 4096 % 16), hexDigitChar (n / 256 % 16),
   hexDigitChar (n / 16 % 16), hexDigitChar (n % 16)]

/-- `json.dumps` escaping of one character (default `ensure_ascii=True`):
`"` and `\` and the five named control characters get two-character escapes,
all other characters outside `0x20..0x7E` get `\uXXXX` escapes, non-BMP
characters as a UTF-16 surrogate pair. -/
def escChar (c : Char) : List Char :=
  if c = '"' then ['\\', '"']
  else if c = '\\' then ['\\', '\\']
  else if c = '\x08' then ['\\', 'b']
  else if c = '\x0c' then ['\\', 'f']
  else if c = '\n' then ['\\', 'n']
  else if c = '\r' then ['\\', 'r']
  else if c = '\t' then ['\\', 't']
  else if c.toNat < 0x20 ∨ 0x7E < c.toNat then
    if c.toNat < 0x10000 then '\\' :: 'u' :: hex4 c.toNat
    else ('\\' :: 'u' :: hex4 (0xD800 + (c.toNat - 0x10000) / 0x400)) ++
         ('\\' :: 'u' :: hex4 (0xDC00 + (c.toNat - 0x10000) % 0x400))
  else [c]

/-- `json.dumps` of a string value. -/
def pyJsonStr (s : String) : List Char :=
  '"' :: s.data.flatMap escChar ++ ['"']

/-- `json.dumps` of the `score` value: the int `0` or a string. -/
def scoreJson : ScoreVal → List Char
  | .zero => ['0']
  | .str s => pyJsonStr s

/-- `json.dumps` of one result record, with the dictionary's insertion
order (`name`, `max_score`, `score`, then `output` when present) and the
default separators `", "` and `": "`. -/
def pyDumpsEntry (e : GEntry) : List Char :=
  lbrace :: (pyJsonStr "name" ++ ':' :: ' ' :: pyJsonStr e.name
    ++ ',' :: ' ' :: pyJsonStr "max_score" ++ ':' :: ' ' :: pyJsonStr e.max_score
    ++ ',' :: ' ' :: pyJsonStr "score" ++ ':' :: ' ' :: scoreJson e.score
    ++ (match e.output with
        | some o => ',' :: ' ' :: pyJsonStr "output" ++ ':' :: ' ' :: pyJsonStr o
        | none => [])
    ++ [rbrace])

/-- `sep.join(blocks)`. -/
def joinSep (sep : List Char) : List (List Char) → List Char
  | [] => []
  | [x] => x
  | x :: y :: rest => x ++ sep ++ joinSep sep (y :: rest)

/-- The full text `gradescope_json` prints: the first `print` emits the
opening skeleton plus a newline, the second the `",\n"`-join of the records
plus a newline, the third the closing skeleton plus a newline. -/
def gradescope_output (entries : List GEntry) : List Char :=
  lbrace :: '\n' :: '"' :: 't' :: 'e' :: 's' :: 't' :: 's' :: '"' :: ':' :: '\n' ::
    '[' :: '\n' :: '\n' ::
    (joinSep [',', '\n'] (entries.map pyDumpsEntry)
      ++ '\n' :: ' ' :: ' ' :: ' ' :: ' ' :: ']' :: '\n' :: rbrace :: '\n' :: ['\n'])

/-! ### The JSON grammar of RFC 8259

A derivation `GDoc s b` certifies that the character list `b` is one
complete well-formed JSON text (so in particular balanced brackets and no
trailing commas) whose value has shape `s`.  The productions transcribe the
`json.org` grammar: `element = ws value ws`, `array = '[' (ws | elements)
']'`, `elements = element (',' element)*`, `member = ws string ws ':'
element`, strings are quote-delimited sequences of unescaped characters
(`0x20..`, minus quote and backslash), two-character escapes, or `\u` plus
four hexadecimal digits, and the only numbers needed here are non-negative
integers without leading zeros. -/

/-- JSON insignificant whitespace: space, linefeed, tab, carriage return. -/
def isWsChar (c : Char) : Bool := c == ' ' || c == '\n' || c == '\t' || c == '\r'

/-- A hexadecimal digit (either case). -/
def isHexChar (c : Char) : Bool :=
  (48 ≤ c.toNat && c.toNat ≤ 57) || (97 ≤ c.toNat && c.toNat ≤ 102) ||
    (65 ≤ c.toNat && c.toNat ≤ 70)

/-- One logical character inside a JSON string literal. -/
inductive StrChar : List Char → Prop where
  | lit (c : Char) : c ≠ '"' → c ≠ '\\' → 0x20 ≤ c.toNat → StrChar [c]
  | esc (c : Char) :
      c = '"' ∨ c = '\\' ∨ c = '/' ∨ c = 'b' ∨ c = 'f' ∨ c = 'n' ∨ c = 'r' ∨ c = 't' →
      StrChar ['\\', c]
  | uesc (a b c d : Char) : isHexChar a = true → isHexChar b = true →
      isHexChar c = true → isHexChar d = true → StrChar ['\\', 'u', a, b, c, d]

/-- The body of a JSON string literal (between the quotes). -/
inductive StrBody : List Char → Prop where
  | nil : StrBody []
  | cons (b r : List Char) : StrChar b → StrBody r → StrBody (b ++ r)

/-- The shape of a JSON value: object members record their key's string
body. -/
inductive JShape where
  | str : JShape
  | num : JShape
  | arr : List JShape → JShape
  | obj : List (List Char × JShape) → JShape

mutual
inductive GValue : JShape → List Char → Prop where
  | str (b : List Char) : StrBody b → GValue .str ('"' :: b ++ ['"'])
  | num (l : List Char) : l ≠ [] → (∀ c ∈ l, c.isDigit = true) →
      (l = ['0'] ∨ l.head? ≠ some '0') → GValue .num l
  | arrNil (w : List Char) : (∀ c ∈ w, isWsChar c = true) →
      GValue (.arr []) ('[' :: w ++ [']'])
  | arr (s : JShape) (ss : List JShape) (b : List Char) :
      GElements (s :: ss) b → GValue (.arr (s :: ss)) ('[' :: b ++ [']'])
  | objNil (w : List Char) : (∀ c ∈ w, isWsChar c = true) →
      GValue (.obj []) (lbrace :: w ++ [rbrace])
  | obj (m : List Char × JShape) (ms : List (List Char × JShape)) (b : List Char) :
      GMembers (m :: ms) b → GValue (.obj (m :: ms)) (lbrace :: b ++ [rbrace])

inductive GElement : JShape → List Char → Prop where
  | mk (w1 b w2 : List Char) (s : JShape) : (∀ c ∈ w1, isWsChar c = true) → GValue s b →
      (∀ c ∈ w2, isWsChar c = true) → GElement s (w1 ++ b ++ w2)

inductive GElements : List JShape → List Char → Prop where
  | single (s : JShape) (b : List Char) : GElement s b → GElements [s] b
  | cons (s t : JShape) (ts : List JShape) (b r : List Char) :
      GElement s b → GElements (t :: ts) r → GElements (s :: t :: ts) (b ++ ',' :: r)

inductive GMember : List Char × JShape → List Char → Prop where
  | mk (w1 k w2 b : List Char) (s : JShape) : (∀ c ∈ w1, isWsChar c = true) → StrBody k →
      (∀ c ∈ w2, isWsChar c = true) → GElement s b →
      GMember (k, s) (w1 ++ '"' :: k ++ '"' :: w2 ++ ':' :: b)

inductive GMembers : List (List Char × JShape) → List Char → Prop where
  | single (m : List Char × JShape) (b : List Char) : GMember m b → GMembers [m] b
  | cons (m n : List Char × JShape) (ns : List (List Char × JShape)) (b r : List Char) :
      GMember m b → GMembers (n :: ns) r → GMembers (m :: n :: ns) (b ++ ',' :: r)
end

/-- A complete JSON text: `json-text = ws value ws`. -/
def GDoc (s : JShape) (b : List Char) : Prop := GElement s b

/-- The JSON shape of the `score` field. -/
def scoreShape : ScoreVal → JShape
  | .zero => .num
  | .str _ => .str

/-- The JSON shape of one serialised result record. -/
def entryShape (e : GEntry) : JShape :=
  .obj ([("name".data, .str), ("max_score".data, .str), ("score".data, scoreShape e.score)] ++
    (match e.output with
     | some _ => [("output".data, .str)]
     | none => []))

/-! ### Derivation lemmas: the emitted text is grammatical -/

theorem isHexChar_hexDigitChar : ∀ m, m < 16 → isHexChar (hexDigitChar m) = true := by decide

theorem strBody_single {b : List Char} (h : StrChar b) : StrBody b := by
  have h2 := StrBody.cons b [] h StrBody.nil
  simpa using h2

theorem strBody_append {a b : List Char} (ha : StrBody a) (hb : StrBody b) :
    StrBody (a ++ b) := by
  induction ha with
  | nil => simpa using hb
  | cons blk r hblk _ ih =>
      rw [List.append_assoc]
      exact StrBody.cons blk (r ++ b) hblk ih

theorem strBody_escChar (c : Char) : StrBody (escChar c) := by
  unfold escChar
  by_cases h1 : c = '"'
  · rw [if_pos h1]
    exact strBody_single (StrChar.esc '"' (Or.inl rfl))
  rw [if_neg h1]
  by_cases h2 : c = '\\'
  · rw [if_pos h2]
    exact strBody_single (StrChar.esc '\\' (Or.inr (Or.inl rfl)))
  rw [if_neg h2]
  by_cases h3 : c = '\x08'
  · rw [if_pos h3]
    exact strBody_single (StrChar.esc 'b' (Or.inr (Or.inr (Or.inr (Or.inl rfl)))))
  rw [if_neg h3]
  by_cases h4 : c = '\x0c'
  · rw [if_pos h4]
    exact strBody_single (StrChar.esc 'f' (Or.inr (Or.inr (Or.inr (Or.inr (Or.inl rfl))))))
  rw [if_neg h4]
  by_cases h5 : c = '\n'
  · rw [if_pos h5]
    exact strBody_single
      (StrChar.esc 'n' (Or.inr (Or.inr (Or.inr (Or.inr (Or.inr (Or.inl rfl)))))))
  rw [if_neg h5]
  by_cases h6 : c = '\r'
  · rw [if_pos h6]
    exact strBody_single
      (StrChar.esc 'r' (Or.inr (Or.inr (Or.inr (Or.inr (Or.inr (Or.inr (Or.inl rfl))))))))
  rw [if_neg h6]
  by_cases h7 : c = '\t'
  · rw [if_pos h7]
    exact strBody_single
      (StrChar.esc 't' (Or.inr (Or.inr (Or.inr (Or.inr (Or.inr (Or.inr (Or.inr rfl))))))))
  rw [if_neg h7]
  by_cases h8 : c.toNat < 0x20 ∨ 0x7E < c.toNat
  · rw [if_pos h8]
    by_cases h9 : c.toNat < 0x10000
    · rw [if_pos h9]
      refine strBody_single ?_
      unfold hex4
      exact StrChar.uesc _ _ _ _
        (isHexChar_hexDigitChar _ (Nat.mod_lt _ (by omega)))
        (isHexChar_hexDigitChar _ (Nat.mod_lt _ (by omega)))
        (isHexChar_hexDigitChar _ (Nat.mod_lt _ (by omega)))
        (isHexChar_hexDigitChar _ (Nat.mod_lt _ (by omega)))
    · rw [if_neg h9]
      refine strBody_append (strBody_single ?_) (strBody_single ?_)
      · unfold hex4
        exact StrChar.uesc _ _ _ _
          (isHexChar_hexDigitChar _ (Nat.mod_lt _ (by omega)))
          (isHexChar_hexDigitChar _ (Nat.mod_lt _ (by omega)))
          (isHexChar_hexDigitChar _ (Nat.mod_lt _ (by omega)))
          (isHexChar_hexDigitChar _ (Nat.mod_lt _ (by omega)))
      · unfold hex4
        exact StrChar.uesc _ _ _ _
          (isHexChar_hexDigitChar _ (Nat.mod_lt _ (by omega)))
          (isHexChar_hexDigitChar _ (Nat.mod_lt _ (by omega)))
          (isHexChar_hexDigitChar _ (Nat.mod_lt _ (by omega)))
          (isHexChar_hexDigitChar _ (Nat.mod_lt _ (by omega)))
  · rw [if_neg h8]
    push_neg at h8
    exact strBody_single (StrChar.lit c h1 h2 h8.1)

theorem strBody_flatMap (l : List Char) : StrBody (l.flatMap escChar) := by
  induction l with
  | nil => exact StrBody.nil
  | cons c rest ih =>
      rw [List.flatMap_cons]
      exact strBody_append (strBody_escChar c) ih

theorem gvalue_pyJsonStr (s : String) : GValue .str (pyJsonStr s) :=
  GValue.str _ (strBody_flatMap s.data)

theorem gvalue_scoreJson (v : ScoreVal) : GValue (scoreShape v) (scoreJson v) := by
  cases v with
  | zero => exact GValue.num ['0'] (by simp) (by decide) (Or.inl rfl)
  | str s => exact gvalue_pyJsonStr s

theorem gvalue_obj_eq (m : List Char × JShape) (ms : List (List Char × JShape))
    (b l : List Char) (h : GMembers (m :: ms) b) (hl : l = lbrace :: b ++ [rbrace]) :
    GValue (.obj (m :: ms)) l := hl ▸ GValue.obj m ms b h

theorem gvalue_arr_eq (s : JShape) (ss : List JShape) (b l : List Char)
    (h : GElements (s :: ss) b) (hl : l = '[' :: b ++ [']']) :
    GValue (.arr (s :: ss)) l := hl ▸ GValue.arr s ss b h

theorem gvalue_arrNil_eq (w l : List Char) (hw : ∀ c ∈ w, isWsChar c = true)
    (hl : l = '[' :: w ++ [']']) : GValue (.arr []) l := hl ▸ GValue.arrNil w hw

theorem gelement_eq (w1 b w2 : List Char) (s : JShape) (l : List Char)
    (h1 : ∀ c ∈ w1, isWsChar c = true) (hv : GValue s b)
    (h2 : ∀ c ∈ w2, isWsChar c = true) (hl : l = w1 ++ b ++ w2) :
    GElement s l := hl ▸ GElement.mk w1 b w2 s h1 hv h2

theorem gmember_eq (w1 k w2 b : List Char) (s : JShape) (l : List Char)
    (h1 : ∀ c ∈ w1, isWsChar c = true) (hk : StrBody k)
    (h2 : ∀ c ∈ w2, isWsChar c = true) (hb : GElement s b)
    (hl : l = w1 ++ '"' :: k ++ '"' :: w2 ++ ':' :: b) :
    GMember (k, s) l := hl ▸ GMember.mk w1 k w2 b s h1 hk h2 hb

theorem gmembers_cons_eq (m n : List Char × JShape) (ns : List (List Char × JShape))
    (b r l : List Char) (hm : GMember m b) (hr : GMembers (n :: ns) r)
    (hl : l = b ++ ',' :: r) : GMembers (m :: n :: ns) l :=
  hl ▸ GMembers.cons m n ns b r hm hr

theorem gelements_cons_eq (s t : JShape) (ts : List JShape) (b r l : List Char)
    (hs : GElement s b) (hr : GElements (t :: ts) r) (hl : l = b ++ ',' :: r) :
    GElements (s :: t :: ts) l := hl ▸ GElements.cons s t ts b r hs hr

/-- A member `"key": v` whose key needs no escaping, preceded by optional
whitespace (the space `json.dumps` places after a comma). -/
theorem gmember_plain (kstr : String) (hk : kstr.data.flatMap escChar = kstr.data)
    (w1 : List Char) (hw1 : ∀ c ∈ w1, isWsChar c = true)
    (s : JShape) (v : List Char) (hv : GValue s v) (l : List Char)
    (hl : l = w1 ++ pyJsonStr kstr ++ ':' :: ' ' :: v) :
    GMember (kstr.data, s) l := by
  refine gmember_eq w1 kstr.data [] (' ' :: v) s l hw1 (hk ▸ strBody_flatMap kstr.data)
    (by simp) ?_ ?_
  · exact gelement_eq [' '] v [] s _ (by decide) hv (by simp) (by simp)
  · rw [hl]
    unfold pyJsonStr
    rw [hk]
    simp

/-- Each serialised record is a well-formed JSON object of its shape. -/
theorem gvalue_entry (e : GEntry) : GValue (entryShape e) (pyDumpsEntry e) := by
  have hname : ("name".data).flatMap escChar = "name".data := by decide
  have hmax : ("max_score".data).flatMap escChar = "max_score".data := by decide
  have hscore : ("score".data).flatMap escChar = "score".data := by decide
  have hout : ("output".data).flatMap escChar = "output".data := by decide
  cases ho : e.output with
  | none =>
      unfold entryShape pyDumpsEntry
      rw [ho]
      simp only [List.append_nil]
      refine gvalue_obj_eq _ _
        (pyJsonStr "name" ++ ':' :: ' ' :: pyJsonStr e.name
          ++ ',' :: ' ' :: pyJsonStr "max_score" ++ ':' :: ' ' :: pyJsonStr e.max_score
          ++ ',' :: ' ' :: pyJsonStr "score" ++ ':' :: ' ' :: scoreJson e.score) _ ?_ ?_
      · refine gmembers_cons_eq _ _ _
          (pyJsonStr "name" ++ ':' :: ' ' :: pyJsonStr e.name)
          (' ' :: pyJsonStr "max_score" ++ ':' :: ' ' :: pyJsonStr e.max_score
            ++ ',' :: ' ' :: pyJsonStr "score" ++ ':' :: ' ' :: scoreJson e.score) _
          (gmember_plain "name" hname [] (by simp) .str _ (gvalue_pyJsonStr e.name) _
            (by simp)) ?_ ?_
        · refine gmembers_cons_eq _ _ _
            (' ' :: pyJsonStr "max_score" ++ ':' :: ' ' :: pyJsonStr e.max_score)
            (' ' :: pyJsonStr "score" ++ ':' :: ' ' :: scoreJson e.score) _
            (gmember_plain "max_score" hmax [' '] (by decide) .str _
              (gvalue_pyJsonStr e.max_score) _ (by simp)) ?_ ?_
          · exact GMembers.single _ _
              (gmember_plain "score" hscore [' '] (by decide) (scoreShape e.score) _
                (gvalue_scoreJson e.score) _ (by simp))
          · simp
        · simp
      · simp
  | some o =>
      unfold entryShape pyDumpsEntry
      rw [ho]
      refine gvalue_obj_eq _ _
        (pyJsonStr "name" ++ ':' :: ' ' :: pyJsonStr e.name
          ++ ',' :: ' ' :: pyJsonStr "max_score" ++ ':' :: ' ' :: pyJsonStr e.max_score
          ++ ',' :: ' ' :: pyJsonStr "score" ++ ':' :: ' ' :: scoreJson e.score
          ++ ',' :: ' ' :: pyJsonStr "output" ++ ':' :: ' ' :: pyJsonStr o) _ ?_ ?_
      · refine gmembers_cons_eq _ _ _
          (pyJsonStr "name" ++ ':' :: ' ' :: pyJsonStr e.name)
          (' ' :: pyJsonStr "max_score" ++ ':' :: ' ' :: pyJsonStr e.max_score
            ++ ',' :: ' ' :: pyJsonStr "score" ++ ':' :: ' ' :: scoreJson e.score
            ++ ',' :: ' ' :: pyJsonStr "output" ++ ':' :: ' ' :: pyJsonStr o) _
          (gmember_plain "name" hname [] (by simp) .str _ (gvalue_pyJsonStr e.name) _
            (by simp)) ?_ ?_
        · refine gmembers_cons_eq _ _ _
            (' ' :: pyJsonStr "max_score" ++ ':' :: ' ' :: pyJsonStr e.max_score)
            (' ' :: pyJsonStr "score" ++ ':' :: ' ' :: scoreJson e.score
              ++ ',' :: ' ' :: pyJsonStr "output" ++ ':' :: ' ' :: pyJsonStr o) _
            (gmember_plain "max_score" hmax [' '] (by decide) .str _
              (gvalue_pyJsonStr e.max_score) _ (by simp)) ?_ ?_
          · refine gmembers_cons_eq _ _ _
              (' ' :: pyJsonStr "score" ++ ':' :: ' ' :: scoreJson e.score)
              (' ' :: pyJsonStr "output" ++ ':' :: ' ' :: pyJsonStr o) _
              (gmember_plain "score" hscore [' '] (by decide) (scoreShape e.score) _
                (gvalue_scoreJson e.score) _ (by simp)) ?_ ?_
            · exact GMembers.single _ _
                (gmember_plain "output" hout [' '] (by decide) .str _
                  (gvalue_pyJsonStr o) _ (by simp))
            · simp
          · simp
        · simp
      · simp

/-- The `",\n"`-joined record blocks, wrapped in whitespace, form the
elements of a JSON array. -/
theorem gelements_join (post : List Char) (hpost : ∀ c ∈ post, isWsChar c = true) :
    ∀ (entries : List GEntry) (pre : List Char), (∀ c ∈ pre, isWsChar c = true) →
      entries ≠ [] →
      GElements (entries.map entryShape)
        (pre ++ joinSep [',', '\n'] (entries.map pyDumpsEntry) ++ post) := by
  intro entries
  induction entries with
  | nil => intro pre _ h; exact absurd rfl h
  | cons e rest ih =>
      intro pre hpre _
      cases rest with
      | nil =>
          simp only [List.map_cons, List.map_nil, joinSep]
          exact GElements.single _ _
            (gelement_eq pre (pyDumpsEntry e) post _ _ hpre (gvalue_entry e) hpost rfl)
      | cons e2 rest2 =>
          simp only [List.map_cons, joinSep]
          refine gelements_cons_eq _ _ _ (pre ++ pyDumpsEntry e)
            ('\n' :: (joinSep [',', '\n'] (pyDumpsEntry e2 :: rest2.map pyDumpsEntry) ++ post))
            _ ?_ ?_ ?_
          · exact gelement_eq pre (pyDumpsEntry e) [] _ _ hpre (gvalue_entry e)
              (by simp) (by simp)
          · have h := ih ['\n'] (by decide) (by simp)
            simpa using h
          · simp

/-- The full printed text is one well-formed JSON document whose single key
`"tests"` maps to an array with one element per record. -/
theorem gdoc_gradescope_output (entries : List GEntry) :
    GDoc (.obj [("tests".data, .arr (entries.map entryShape))]) (gradescope_output entries) := by
  have htests : StrBody "tests".data := by
    have h : ("tests".data).flatMap escChar = "tests".data := by decide
    exact h ▸ strBody_flatMap "tests".data
  unfold GDoc gradescope_output
  cases entries with
  | nil =>
      have harr : GValue (.arr ([] : List JShape))
          ('[' :: ['\n', '\n', '\n', ' ', ' ', ' ', ' '] ++ [']']) :=
        gvalue_arrNil_eq _ _ (by decide) rfl
      have helem : GElement (.arr ([] : List JShape))
          ('\n' :: ('[' :: ['\n', '\n', '\n', ' ', ' ', ' ', ' '] ++ [']']) ++ ['\n']) :=
        gelement_eq ['\n'] _ ['\n'] _ _ (by decide) harr (by decide) (by simp)
      have hmem : GMember ("tests".data, .arr ([] : List JShape))
          ('\n' :: '"' :: "tests".data ++ '"' :: ':' ::
            ('\n' :: ('[' :: ['\n', '\n', '\n', ' ', ' ', ' ', ' '] ++ [']']) ++ ['\n'])) :=
        gmember_eq ['\n'] "tests".data [] _ _ _ (by decide) htests (by simp) helem (by simp)
      have hobj : GValue (.obj [("tests".data, .arr ([] : List JShape))])
          (lbrace :: ('\n' :: '"' :: "tests".data ++ '"' :: ':' ::
            ('\n' :: ('[' :: ['\n', '\n', '\n', ' ', ' ', ' ', ' '] ++ [']']) ++ ['\n']))
            ++ [rbrace]) :=
        gvalue_obj_eq _ [] _ _ (GMembers.single _ _ hmem) rfl
      simp only [List.map_nil]
      refine gelement_eq []
        (lbrace :: ('\n' :: '"' :: "tests".data ++ '"' :: ':' ::
          ('\n' :: ('[' :: ['\n', '\n', '\n', ' ', ' ', ' ', ' '] ++ [']']) ++ ['\n']))
          ++ [rbrace]) ['\n', '\n'] _ _ (by simp) hobj (by decide) ?_
      simp [joinSep]
  | cons e rest =>
      have harr : GValue (.arr (entryShape e :: rest.map entryShape))
          ('[' :: (['\n', '\n'] ++ joinSep [',', '\n'] ((e :: rest).map pyDumpsEntry)
            ++ ['\n', ' ', ' ', ' ', ' ']) ++ [']']) := by
        refine gvalue_arr_eq (entryShape e) (rest.map entryShape) _ _ ?_ rfl
        have h := gelements_join ['\n', ' ', ' ', ' ', ' '] (by decide) (e :: rest)
          ['\n', '\n'] (by decide) (by simp)
        simpa using h
      have helem : GElement (.arr (entryShape e :: rest.map entryShape))
          ('\n' :: ('[' :: (['\n', '\n'] ++ joinSep [',', '\n'] ((e :: rest).map pyDumpsEntry)
            ++ ['\n', ' ', ' ', ' ', ' ']) ++ [']']) ++ ['\n']) :=
        gelement_eq ['\n'] _ ['\n'] _ _ (by decide) harr (by decide) (by simp)
      have hmem : GMember ("tests".data, .arr (entryShape e :: rest.map entryShape))
          ('\n' :: '"' :: "tests".data ++ '"' :: ':' ::
            ('\n' :: ('[' :: (['\n', '\n'] ++ joinSep [',', '\n'] ((e :: rest).map pyDumpsEntry)
              ++ ['\n', ' ', ' ', ' ', ' ']) ++ [']']) ++ ['\n'])) :=
        gmember_eq ['\n'] "tests".data [] _ _ _ (by decide) htests (by simp) helem (by simp)
      have hobj : GValue (.obj [("tests".data, .arr (entryShape e :: rest.map entryShape))])
          (lbrace :: ('\n' :: '"' :: "tests".data ++ '"' :: ':' ::
            ('\n' :: ('[' :: (['\n', '\n'] ++ joinSep [',', '\n'] ((e :: rest).map pyDumpsEntry)
              ++ ['\n', ' ', ' ', ' ', ' ']) ++ [']']) ++ ['\n']))
            ++ [rbrace]) :=
        gvalue_obj_eq _ [] _ _ (GMembers.single _ _ hmem) rfl
      simp only [List.map_cons]
      refine gelement_eq []
        (lbrace :: ('\n' :: '"' :: "tests".data ++ '"' :: ':' ::
          ('\n' :: ('[' :: (['\n', '\n'] ++ joinSep [',', '\n'] ((e :: rest).map pyDumpsEntry)
            ++ ['\n', ' ', ' ', ' ', ' ']) ++ [']']) ++ ['\n']))
          ++ [rbrace]) ['\n', '\n'] _ _ (by simp) hobj (by decide) ?_
      simp

/-- C9: for every completing gradescope run, the full text printed to
standard output — skeleton, concatenated `json.dumps` records and closing
skeleton — derives from the RFC 8259 JSON grammar `GDoc` (hence is one
complete, directly parseable document: balanced brackets, no trailing
commas), as an object whose single key `"tests"` maps to an array holding
exactly one record per rubric row: under the data model's key-uniqueness
assumption the array's length equals the rubric's row count. -/
theorem gradescope_output_valid_json (timeout : ℚ) (rows : List CsvRow)
    (files : List (List Testcase)) (resG : List ((String × String) × GEntry))
    (hG : gradescope_json timeout rows files = some resG)
    (hKg : (rows.map fun r => (r.classname, r.testname)).Nodup) :
    GDoc (.obj [("tests".data, .arr ((resG.map Prod.snd).map entryShape))])
      (gradescope_output (resG.map Prod.snd)) ∧
    ((resG.map Prod.snd).map entryShape).length = rows.length := by
  constructor
  · exact gdoc_gradescope_output (resG.map Prod.snd)
  · unfold gradescope_json at hG
    have hkeys := foldEnt_keys gsKey _ _ _ hG
    rw [loadList_eq_of_nodup (fun r => (r.classname, r.testname)) rows hKg] at hkeys
    have hlen : resG.length = rows.length := by
      have h1 := congrArg List.length hkeys
      simpa using h1
    simp [hlen]

/-- C9 witness: one rubric row, no reports — the printed document derives
from the JSON grammar with a one-element `tests` array. -/
theorem gradescope_output_valid_json_witness :
    GDoc (.obj [("tests".data, .arr
        ((([((("a" : String), ("b" : String)),
            ({ name := "a:b", max_score := "5", score := .zero, output := none } : GEntry))].map
          Prod.snd)).map entryShape))])
      (gradescope_output
        (([((("a" : String), ("b" : String)),
            ({ name := "a:b", max_score := "5", score := .zero, output := none } : GEntry))].map
          Prod.snd))) ∧
    ((([((("a" : String), ("b" : String)),
        ({ name := "a:b", max_score := "5", score := .zero, output := none } : GEntry))].map
      Prod.snd)).map entryShape).length =
      ([{ classname := "a", testname := "b", max_score := "5" }] : List CsvRow).length :=
  gradescope_output_valid_json 10 [{ classname := "a", testname := "b", max_score := "5" }] []
    [((("a" : String), ("b" : String)),
      ({ name := "a:b", max_score := "5", score := .zero, output := none } : GEntry))]
    (by decide) (by decide)

end JunitGrader
